import Mathlib

/-!
Shallow embedding of the elevate elevator-simulation core (Rust sources
building.rs, controller.rs, elevator.rs, elevators.rs, floor.rs, floors.rs,
people.rs, person.rs).  Machine floats (f64) are modelled as rationals, usize
as Nat.  Loops that mutate vectors in place are translated to structurally
recursive functions over lists; in-place removal loops of the form
"remove at i - removals" visit each element once in order and therefore
translate to stable filters/partitions.  Where the checked-out sources are
from mixed revisions (elevator capacity field, Elevator::update_direction,
Person::gen_tip), the missing piece is modelled from the spec and marked in
its doc comment.
-/

namespace Elevate

/-- A person (person.rs).  The field p_tip and the tip sampler are modelled
from the spec: the checked-out person.rs predates them, but people.rs calls
pers.gen_tip and building.rs passes P_TIP to the constructor; the spec says
each passenger tips independently with a fixed personal probability. -/
structure Person where
  floor_on : Nat
  floor_to : Nat
  is_leaving : Bool
  wait_time : Nat
  p_out : ℚ
  p_tip : ℚ
deriving DecidableEq, Repr

/-- Person::increment_wait_time (person.rs). -/
def Person.increment_wait_time (p : Person) : Person :=
  { p with wait_time := p.wait_time + 1 }

/-- Person::reset_wait_time (person.rs). -/
def Person.reset_wait_time (p : Person) : Person :=
  { p with wait_time := 0 }

/-- People::get_dest_floors for Vec<Person> (people.rs): collects every
person's floor_to in order. -/
def get_dest_floors (ps : List Person) : List Nat :=
  ps.map (fun p => p.floor_to)

/-- People::get_num_people for Vec<Person> (people.rs). -/
def get_num_people (ps : List Person) : Nat := ps.length

/-- People::get_num_people_waiting for Vec<Person> (people.rs): counts people
with floor_on different from floor_to. -/
def get_num_people_waiting (ps : List Person) : Nat :=
  (ps.filter (fun p => !(p.floor_on == p.floor_to))).length

/-- People::get_aggregate_wait_time for Vec<Person> (people.rs): sums the
wait_time of every person in the vector (no waiting filter in the body). -/
def get_aggregate_wait_time (ps : List Person) : Nat :=
  ps.foldl (fun acc p => acc + p.wait_time) 0

/-- People::are_people_going_to_floor for Vec<Person> (people.rs). -/
def are_people_going_to_floor (ps : List Person) (floor_index : Nat) : Bool :=
  ps.any (fun p => p.floor_to == floor_index)

/-- People::are_people_waiting for Vec<Person> (people.rs). -/
def are_people_waiting (ps : List Person) : Bool :=
  ps.any (fun p => !(p.floor_on == p.floor_to))

/-- People::increment_wait_times for Vec<Person> (people.rs).  The body calls
pers.increment_wait_time() for every person with no waiting filter, although
its doc comment promises to increment only people not at their desired
floor. -/
def vec_increment_wait_times (ps : List Person) : List Person :=
  ps.map Person.increment_wait_time

/-- People::reset_wait_times for Vec<Person> (people.rs): resets every
person's wait_time (again no filter in the body). -/
def vec_reset_wait_times (ps : List Person) : List Person :=
  ps.map Person.reset_wait_time

/-- A floor (floor.rs). -/
structure Floor where
  people : List Person
  capacity : Nat
  dest_prob : ℚ
deriving DecidableEq, Repr

/-- Default floor used to model Rust vector indexing totally; every claim is
instantiated only at in-range indices. -/
def defaultFloor : Floor := { people := [], capacity := 0, dest_prob := 0 }

/-- Floor::get_free_capacity (floor.rs); Nat subtraction truncates where the
Rust usize subtraction would underflow, which is unreachable under the
count-le-capacity invariant. -/
def Floor.get_free_capacity (f : Floor) : Nat :=
  f.capacity - get_num_people f.people

/-- Floor::get_p_out (floor.rs): early 0 for an empty floor, otherwise the
incremental accumulation p_out := sum over people of
p_i * prod of (1 - p_j) over previously visited people.  Note the loop runs
over every person on the floor with no floor_on == floor_to filter. -/
def Floor.get_p_out (f : Floor) : ℚ :=
  if f.people.length = 0 then 0
  else
    (f.people.foldl
      (fun (acc : ℚ × List ℚ) pers =>
        let inverse_p_outs : ℚ := acc.2.foldl (fun t q => t * (1 - q)) 1
        (acc.1 + pers.p_out * inverse_p_outs, acc.2 ++ [pers.p_out]))
      (0, [])).1

/-- Floor::flush_people_entering_elevator (floor.rs): removes waiting people
(floor_on different from floor_to) in order, stopping once the given free
elevator capacity is reached; returns the removed people and keeps the rest
on the floor in order.  Translated from the remove-at-(i - removals) loop,
which is a stable selection. -/
def flushEnterLoop (free_cap taken : Nat) :
    List Person → List Person × List Person
  | [] => ([], [])
  | p :: rest =>
    if taken = free_cap then ([], p :: rest)
    else if p.floor_on = p.floor_to then
      let r := flushEnterLoop free_cap taken rest
      (r.1, p :: r.2)
    else
      let r := flushEnterLoop free_cap (taken + 1) rest
      (p :: r.1, r.2)

/-- Floor::flush_people_entering_elevator wrapper returning the boarding
people and the updated floor. -/
def Floor.flush_people_entering_elevator (f : Floor) (free_elevator_capacity : Nat) :
    List Person × Floor :=
  let r := flushEnterLoop free_elevator_capacity 0 f.people
  (r.1, { f with people := r.2 })

/-- Floor::flush_people_leaving_floor (floor.rs): removes every person with
is_leaving = true, preserving order on both sides (stable partition). -/
def Floor.flush_people_leaving_floor (f : Floor) : List Person × Floor :=
  ((f.people.filter (fun p => p.is_leaving)),
   { f with people := f.people.filter (fun p => !p.is_leaving) })

/-- Extend<Person> for Floor (floor.rs): push arriving people one by one,
breaking as soon as the person count reaches capacity; the remaining people
are silently dropped. -/
def Floor.extend (f : Floor) : List Person → Floor
  | [] => f
  | p :: rest =>
    if get_num_people f.people = f.capacity then f
    else Floor.extend { f with people := f.people ++ [p] } rest

/-- People::increment_wait_times for Floor (floor.rs): unlike the Vec<Person>
version this one skips people whose floor_on equals floor_to. -/
def Floor.increment_wait_times (f : Floor) : Floor :=
  { f with people := f.people.map (fun p =>
      if p.floor_on = p.floor_to then p else p.increment_wait_time) }

/-- People::reset_wait_times for Floor (floor.rs): resets the wait time of
people whose floor_on equals floor_to, skipping waiting people. -/
def Floor.reset_wait_times (f : Floor) : Floor :=
  { f with people := f.people.map (fun p =>
      if p.floor_on = p.floor_to then p.reset_wait_time else p) }

/-- An elevator (elevator.rs).  The capacity field is modelled from the spec
("bounded container of Passengers") and from elevators.rs, which assigns
elevator.capacity; the checked-out elevator.rs predates the field. -/
structure Elevator where
  floor_on : Nat
  moving_up : Bool
  stopped : Bool
  people : List Person
  capacity : Nat
  energy_up : ℚ
  energy_down : ℚ
  energy_coef : ℚ
deriving DecidableEq, Repr

/-- Default elevator used to model Rust vector indexing totally. -/
def defaultElevator : Elevator :=
  { floor_on := 0, moving_up := false, stopped := true, people := []
    capacity := 0, energy_up := 0, energy_down := 0, energy_coef := 0 }

/-- Elevator::get_energy_spent (elevator.rs). -/
def Elevator.get_energy_spent (e : Elevator) : ℚ :=
  if e.stopped then 0
  else if e.moving_up then
    e.energy_up + e.energy_coef * (e.people.length : ℚ)
  else
    e.energy_down + e.energy_coef * (e.people.length : ℚ)

/-- Elevator::update_floor (elevator.rs): no-op if stopped, otherwise move one
floor in the current direction and synchronize every onboard person's
floor_on.  Nat subtraction models the usize decrement (moving down on floor 0
would underflow in Rust; unreachable for controller-driven elevators). -/
def Elevator.update_floor (e : Elevator) : Elevator :=
  if e.stopped then e
  else
    let nf := if e.moving_up then e.floor_on + 1 else e.floor_on - 1
    { e with floor_on := nf, people := e.people.map (fun p => { p with floor_on := nf }) }

/-- Absolute distance between two floor indices, as computed inline in
elevator.rs and floors.rs. -/
def distN (a b : Nat) : Nat := if a > b then a - b else b - a

/-- One iteration of the nearest-destination scan in
Elevator::get_nearest_dest_floor (elevator.rs): replace the incumbent
whenever the tracked minimum is still 0 (the unassigned sentinel) or the new
distance is strictly smaller. -/
def nearestStep (fl : Nat) (acc : Nat × Nat) (d : Nat) : Nat × Nat :=
  let dist := distN fl d
  if acc.2 = 0 ∨ dist < acc.2 then (d, dist) else acc

/-- Elevator::get_nearest_dest_floor (elevator.rs): (0,0) if no people are on
board, otherwise the nearestStep fold from (0,0).  The 0 sentinel means a
destination at distance 0 re-opens the search. -/
def Elevator.get_nearest_dest_floor (e : Elevator) : Nat × Nat :=
  let dest_floors := get_dest_floors e.people
  if dest_floors.length = 0 then (0, 0)
  else dest_floors.foldl (nearestStep e.floor_on) (0, 0)

/-- Elevator::flush_people_leaving_elevator (elevator.rs): when stopped,
remove and return every onboard person whose floor_to equals floor_on
(stable partition, translated from the remove-at-(i - removals) loop);
otherwise return nothing. -/
def Elevator.flush_people_leaving_elevator (e : Elevator) : List Person × Elevator :=
  if !e.stopped then ([], e)
  else ((e.people.filter (fun p => p.floor_on == p.floor_to)),
        { e with people := e.people.filter (fun p => !(p.floor_on == p.floor_to)) })

/-- Extend<Person> for Elevator (elevator.rs): plain push of every person, no
capacity check in this impl. -/
def Elevator.extend (e : Elevator) (ps : List Person) : Elevator :=
  { e with people := e.people ++ ps }

/-- People::increment_wait_times for Elevator (elevator.rs): delegates to the
Vec<Person> implementation, which increments every onboard person. -/
def Elevator.increment_wait_times (e : Elevator) : Elevator :=
  { e with people := vec_increment_wait_times e.people }

/-- Modelled from the spec: Elevator::update_direction is referenced by
controller.rs but absent from the checked-out elevator.rs.  Spec 4.4:
direction derives purely from comparing the target floor to the current one
(greater means up, smaller means down, equal means stop). -/
def Elevator.update_direction (e : Elevator) (dest_floor : Nat) : Elevator :=
  if dest_floor > e.floor_on then { e with moving_up := true, stopped := false }
  else if dest_floor < e.floor_on then { e with moving_up := false, stopped := false }
  else { e with stopped := true }

/-- Elevators::get_dest_floors for Vec<Elevator> (elevators.rs): destination
floors across all elevators, first occurrence kept, duplicates skipped. -/
def elevators_get_dest_floors (es : List Elevator) : List Nat :=
  es.foldl
    (fun acc e =>
      (get_dest_floors e.people).foldl
        (fun a d => if a.contains d then a else a ++ [d]) acc)
    []

/-- Elevators::get_energy_spent for Vec<Elevator> (elevators.rs): total
energy across the elevators. -/
def elevators_get_energy_spent (es : List Elevator) : ℚ :=
  es.foldl (fun acc e => acc + e.get_energy_spent) 0

/-- Elevators::increment_wait_times for Vec<Elevator> (elevators.rs): calls
each elevator's increment, i.e. the unfiltered Vec<Person> version. -/
def elevators_increment_wait_times (es : List Elevator) : List Elevator :=
  es.map Elevator.increment_wait_times

/-- Elevators::update_capacities for Vec<Elevator> (elevators.rs): if the
requested capacity is smaller than any elevator's occupancy, do nothing,
otherwise assign it to every elevator. -/
def elevators_update_capacities (es : List Elevator) (capacity : Nat) : List Elevator :=
  let can_update := es.all (fun e => !(capacity < get_num_people e.people))
  if can_update then es.map (fun e => { e with capacity := capacity }) else es

/-- Floors::are_people_waiting_on_floor for Vec<Floor> (floors.rs); the Rust
index is modelled with getD, in range in every use below. -/
def are_people_waiting_on_floor (fs : List Floor) (floor_index : Nat) : Bool :=
  are_people_waiting (fs.getD floor_index defaultFloor).people

/-- Inner loop of Floors::get_nearest_wait_floor (floors.rs): enumerated scan
of the floors with the same 0-sentinel fold as the elevator search. -/
def nearestWaitLoop (floor_on : Nat) :
    List Floor → Nat → Nat × Nat → Nat × Nat
  | [], _, acc => acc
  | fl :: rest, i, acc =>
    if !are_people_waiting fl.people then
      nearestWaitLoop floor_on rest (i + 1) acc
    else
      let dist := distN floor_on i
      nearestWaitLoop floor_on rest (i + 1)
        (if acc.2 = 0 ∨ dist < acc.2 then (i, dist) else acc)

/-- Floors::get_nearest_wait_floor for Vec<Floor> (floors.rs). -/
def get_nearest_wait_floor (fs : List Floor) (floor_on : Nat) : Nat × Nat :=
  nearestWaitLoop floor_on fs 0 (0, 0)

/-- Floors::flush_first_floor for Vec<Floor> (floors.rs): flushes the leaving
people from floor 0. -/
def flush_first_floor (fs : List Floor) : List Person × List Floor :=
  let r := (fs.getD 0 defaultFloor).flush_people_leaving_floor
  (r.1, fs.set 0 r.2)

/-- Floors::increment_wait_times for Vec<Floor> (floors.rs): per-floor
increment with the waiting filter of the Floor implementation. -/
def floors_increment_wait_times (fs : List Floor) : List Floor :=
  fs.map Floor.increment_wait_times

/-- Floors::update_capacities for Vec<Floor> (floors.rs). -/
def floors_update_capacities (fs : List Floor) (capacity : Nat) : List Floor :=
  let can_update := fs.all (fun f => !(capacity < get_num_people f.people))
  if can_update then fs.map (fun f => { f with capacity := capacity }) else fs

/-- Per-tick leave probability constant P_OUT (building.rs). -/
def pOutConst : ℚ := 5 / 100

/-- Tip probability constant P_TIP (building.rs). -/
def pTipConst : ℚ := 1 / 2

/-- Tip value distribution parameters DST_TIP_TRIALS and DST_TIP_SUCCESS
(building.rs). -/
def dstTipTrials : Nat := 100

/-- Success probability of the tip value distribution (building.rs). -/
def dstTipSuccess : ℚ := 1 / 2

/-- A building (building.rs).  The Poisson and Binomial sampler objects are
not stored; sampling is threaded through an explicit Sampler at every call,
parameterized by p_in and the tip constants, mirroring how the source passes
an explicit rng into every sample call. -/
structure Building where
  elevators : List Elevator
  floors : List Floor
  avg_energy : ℚ
  avg_wait_time : ℚ
  tot_tips : ℚ
  wait_time_denom : Nat
  p_in : ℚ
deriving DecidableEq, Repr

/-- The people exiting a stopped elevator in the exchange step: exactly its
onboard people whose floor_to equals floor_on; nothing exits a moving
elevator. -/
def elevatorExited (e : Elevator) : List Person :=
  if e.stopped then e.people.filter (fun p => p.floor_on == p.floor_to) else []

/-- Total count of people exiting stopped elevators during one exchange. -/
def exitedCount (es : List Elevator) : Nat :=
  (es.map (fun e => (elevatorExited e).length)).sum

/-- Total accumulated wait time of people exiting stopped elevators during
one exchange. -/
def exitedWait (es : List Elevator) : Nat :=
  (es.map (fun e => get_aggregate_wait_time (elevatorExited e))).sum

/-- Body of one stopped-elevator iteration of
Building::exchange_people_on_elevator (building.rs): flush boarding people
off the elevator's floor (capped by the elevator's free capacity, per
floor.rs and the spec — the building.rs call predates the capacity
argument), flush arrived people off the elevator, fold their wait times into
the running average guarding a zero denominator, reset their wait counters,
then extend the elevator and the floor. -/
def exchangeStep (fs : List Floor) (avg : ℚ) (denom : Nat) (e : Elevator) :
    Elevator × List Floor × ℚ × Nat :=
  let floor_index := e.floor_on
  let fl := fs.getD floor_index defaultFloor
  let free_cap := e.capacity - e.people.length
  let enter := fl.flush_people_entering_elevator free_cap
  let leave := e.flush_people_leaving_elevator
  let wait_times := get_aggregate_wait_time leave.1
  let num_people := get_num_people leave.1
  let avg1 : ℚ :=
    let tmp_num : ℚ := (wait_times : ℚ) + avg * (denom : ℚ)
    let tmp_denom : ℚ := (num_people : ℚ) + (denom : ℚ)
    if tmp_denom = 0 then 0 else tmp_num / tmp_denom
  let denom1 := denom + num_people
  let leavers := vec_reset_wait_times leave.1
  let e2 := leave.2.extend enter.1
  let fl2 := enter.2.extend leavers
  (e2, fs.set floor_index fl2, avg1, denom1)

/-- Loop of Building::exchange_people_on_elevator (building.rs), threading
the floors, the running average and its denominator through the elevators in
order; non-stopped elevators are skipped. -/
def exchangeLoop :
    List Elevator → List Floor → ℚ → Nat → List Elevator × List Floor × ℚ × Nat
  | [], fs, avg, denom => ([], fs, avg, denom)
  | e :: rest, fs, avg, denom =>
    if !e.stopped then
      let r := exchangeLoop rest fs avg denom
      (e :: r.1, r.2)
    else
      let s := exchangeStep fs avg denom e
      let r := exchangeLoop rest s.2.1 s.2.2.1 s.2.2.2
      (s.1 :: r.1, r.2)

/-- Building::exchange_people_on_elevator (building.rs). -/
def Building.exchange_people_on_elevator (b : Building) : Building :=
  let r := exchangeLoop b.elevators b.floors b.avg_wait_time b.wait_time_denom
  { b with elevators := r.1, floors := r.2.1,
           avg_wait_time := r.2.2.1, wait_time_denom := r.2.2.2 }

/-- Building::collect_tips (building.rs). -/
def Building.collect_tips (b : Building) : ℚ × Building :=
  (b.tot_tips, { b with tot_tips := 0 })

/-- Building::update_average_energy (building.rs). -/
def Building.update_average_energy (b : Building) (time_step : Nat) (energy_spent : ℚ) :
    Building :=
  { b with avg_energy :=
      ((b.avg_energy * (time_step : ℚ)) + energy_spent) / ((time_step : ℚ) + 1) }

/-- Floors::increment_wait_times for Building (building.rs): elevators first
(unfiltered per-person increment), then floors (filtered). -/
def Building.increment_wait_times (b : Building) : Building :=
  { b with elevators := elevators_increment_wait_times b.elevators,
           floors := floors_increment_wait_times b.floors }

/-- Loop of Building::update_dest_probabilities (building.rs), enumerating
the floors. -/
def destProbLoop (p_in : ℚ) (num_floors : Nat) (dest_floors : List Nat) :
    List Floor → Nat → List Floor
  | [], _ => []
  | fl :: rest, i =>
    let waiting : ℚ := if are_people_waiting fl.people then 1 else 0
    let going : ℚ := if dest_floors.contains i then 1 else 0
    let people_waiting : ℚ := if waiting > going then waiting else going
    let dest_probability : ℚ :=
      if i = 0 then
        let pin : ℚ := p_in * (((num_floors : ℚ) - 1) / (num_floors : ℚ))
        if people_waiting > pin then people_waiting else pin
      else
        let po := fl.get_p_out
        if people_waiting > po then people_waiting else po
    { fl with dest_prob := dest_probability } :: destProbLoop p_in num_floors dest_floors rest (i + 1)

/-- Building::update_dest_probabilities (building.rs). -/
def Building.update_dest_probabilities (b : Building) : Building :=
  { b with floors :=
      destProbLoop b.p_in b.floors.length (elevators_get_dest_floors b.elevators) b.floors 0 }

/-- An explicit pseudo-random source with the four distribution samplers the
core draws from (statrs Poisson and Binomial, rand Bernoulli and Uniform).
Every sampling call in the source takes the rng explicitly (a parameter or
the controller's owned seeded StdRng); correspondingly every sampling
operation here is a pure function of the sampler state sigma, threaded
through each call in source order. -/
structure Sampler (σ : Type) where
  poisson : ℚ → σ → Nat × σ
  bernoulli : ℚ → σ → Bool × σ
  uniformNat : Nat → σ → Nat × σ
  binomial : ℚ → Nat → σ → ℚ × σ

/-- Person::gen_is_leaving (person.rs): no sampling once is_leaving is set;
otherwise sample the personal Bernoulli(p_out) and, on success, redirect
floor_to to 0 and set is_leaving. -/
def genIsLeaving {σ : Type} (S : Sampler σ) (p : Person) (rng : σ) : Person × σ :=
  if p.is_leaving then (p, rng)
  else
    let br := S.bernoulli p.p_out rng
    if br.1 then ({ p with floor_to := 0, is_leaving := true }, br.2)
    else (p, br.2)

/-- Floor::gen_people_leaving (floor.rs): people waiting for the elevator
(floor_on different from floor_to) are skipped without consuming the rng;
resting people sample gen_is_leaving. -/
def Floor.gen_people_leaving {σ : Type} (S : Sampler σ) (f : Floor) (rng : σ) : Floor × σ :=
  let r := f.people.foldl
    (fun (acc : List Person × σ) p =>
      if p.floor_on ≠ p.floor_to then (acc.1 ++ [p], acc.2)
      else
        let pr := genIsLeaving S p acc.2
        (acc.1 ++ [pr.1], pr.2))
    ([], rng)
  ({ f with people := r.1 }, r.2)

/-- Floors::gen_people_leaving for Vec<Floor> (floors.rs). -/
def floors_gen_people_leaving {σ : Type} (S : Sampler σ) (fs : List Floor) (rng : σ) :
    List Floor × σ :=
  fs.foldl
    (fun (acc : List Floor × σ) fl =>
      let r := fl.gen_people_leaving S acc.2
      (acc.1 ++ [r.1], r.2))
    ([], rng)

/-- People::gen_num_tips for Vec<Person> (people.rs); Person::gen_tip is
modelled from the spec as a Bernoulli(p_tip) draw (the checked-out person.rs
predates it). -/
def gen_num_tips {σ : Type} (S : Sampler σ) (ps : List Person) (rng : σ) : Nat × σ :=
  ps.foldl
    (fun (acc : Nat × σ) p =>
      let br := S.bernoulli p.p_tip acc.2
      (if br.1 then acc.1 + 1 else acc.1, br.2))
    (0, rng)

/-- Building::gen_tip_value (building.rs): one Binomial(DST_TIP_SUCCESS,
DST_TIP_TRIALS) draw per tipper, summed. -/
def Building.gen_tip_value {σ : Type} (S : Sampler σ) (_b : Building) (num_tips : Nat)
    (rng : σ) : ℚ × σ :=
  (List.range num_tips).foldl
    (fun (acc : ℚ × σ) _ =>
      let s := S.binomial dstTipSuccess dstTipTrials acc.2
      (acc.1 + s.1, s.2))
    (0, rng)

/-- Building::flush_and_update_tips (building.rs). -/
def Building.flush_and_update_tips {σ : Type} (S : Sampler σ) (b : Building) (rng : σ) :
    Building × σ :=
  let fr := flush_first_floor b.floors
  let b1 := { b with floors := fr.2 }
  let nt := gen_num_tips S fr.1 rng
  let tv := b1.gen_tip_value S nt.1 nt.2
  ({ b1 with tot_tips := b1.tot_tips + tv.1 }, tv.2)

/-- Person::from (person.rs plus the building.rs call that passes P_TIP):
destination floor sampled uniformly over the building's floors, created on
floor 0 with zero wait time. -/
def Person.generate {σ : Type} (S : Sampler σ) (p_out p_tip : ℚ) (num_floors : Nat)
    (rng : σ) : Person × σ :=
  let u := S.uniformNat num_floors rng
  ({ floor_on := 0, floor_to := u.1, is_leaving := false, wait_time := 0,
     p_out := p_out, p_tip := p_tip }, u.2)

/-- Building::gen_people_arriving (building.rs): Poisson(p_in) arrival count,
that many fresh people appended to floor 0 (capacity-capped by the floor's
Extend). -/
def Building.gen_people_arriving {σ : Type} (S : Sampler σ) (b : Building) (rng : σ) :
    Building × σ :=
  let n := S.poisson b.p_in rng
  let arrivals := (List.range n.1).foldl
    (fun (acc : List Person × σ) _ =>
      let pr := Person.generate S pOutConst pTipConst b.floors.length acc.2
      (acc.1 ++ [pr.1], pr.2))
    ([], n.2)
  ({ b with floors := b.floors.set 0 ((b.floors.getD 0 defaultFloor).extend arrivals.1) },
   arrivals.2)

/-- Decision of NearestController::update_elevators for one elevator
(controller.rs lines 355-403), translated branch by branch.  Note that in the
moving branch every conditional pushes the current floor, and the
fall-through at the end of the loop body also pushes the current floor. -/
def nearestDecision (b : Building) (e : Elevator) : Nat :=
  if e.stopped then
    let nd := e.get_nearest_dest_floor
    if nd.2 ≠ 0 then nd.1
    else
      let nw := get_nearest_wait_floor b.floors e.floor_on
      if nw.2 ≠ 0 then nw.1
      else e.floor_on
  else
    if !e.moving_up ∧ e.floor_on = 0 then e.floor_on
    else if e.moving_up ∧ e.floor_on = b.floors.length - 1 then e.floor_on
    else if are_people_going_to_floor e.people e.floor_on then e.floor_on
    else if are_people_waiting_on_floor b.floors e.floor_on then e.floor_on
    else e.floor_on

/-- NearestController::update_elevators (controller.rs): compute every
decision from the unmodified building, then apply update_direction and
update_floor to each elevator. -/
def nearest_update_elevators (b : Building) : Building :=
  let decisions := b.elevators.map (fun e => nearestDecision b e)
  let es2 := (b.elevators.zip decisions).map
    (fun pe => (pe.1.update_direction pe.2).update_floor)
  { b with elevators := es2 }

/-- RandomController state (controller.rs): the owned building, the tracked
floor count, the per-elevator cached destination floors, the rationality
probability and the upgradable flag.  The Uniform and Bernoulli sampler
objects are reconstructed from num_floors and p_rational at each use via the
explicit Sampler. -/
structure RandomCtl where
  building : Building
  num_floors : Nat
  floors_to : List (Option Nat)
  p_rational : ℚ
  upgradable : Bool

/-- ElevatorController::can_be_upgraded for RandomController
(controller.rs). -/
def RandomCtl.can_be_upgraded (c : RandomCtl) : Bool :=
  if c.p_rational ≥ 1 then false else c.upgradable

/-- ElevatorController::upgrade for RandomController (controller.rs): add the
increment, cap at 1.0 (the Bernoulli sampler rebuild carries no state
here). -/
def RandomCtl.upgrade (c : RandomCtl) (incrementation : ℚ) : RandomCtl :=
  let new_p_rational := c.p_rational + incrementation
  { c with p_rational := if new_p_rational > 1 then 1 else new_p_rational }

/-- Per-elevator loop of RandomController::update_floors_to (controller.rs):
entries that are already Some are kept; a None entry is filled in every
branch — nearest onboard destination, nearest waiting floor, the current
floor as fallback, or a uniformly sampled floor on the irrational branch. -/
def updLoop {σ : Type} (S : Sampler σ) (b : Building) (nf : Nat) (pr : ℚ) :
    List Elevator → Nat → List (Option Nat) → σ → List (Option Nat) × σ
  | [], _, ft, rng => (ft, rng)
  | e :: rest, i, ft, rng =>
    match ft.getD i none with
    | some _ => updLoop S b nf pr rest (i + 1) ft rng
    | none =>
      let br := S.bernoulli pr rng
      if br.1 then
        if e.stopped then
          let nd := e.get_nearest_dest_floor
          if nd.2 ≠ 0 then
            updLoop S b nf pr rest (i + 1) (ft.set i (some nd.1)) br.2
          else
            let nw := get_nearest_wait_floor b.floors e.floor_on
            if nw.2 ≠ 0 then
              updLoop S b nf pr rest (i + 1) (ft.set i (some nw.1)) br.2
            else
              updLoop S b nf pr rest (i + 1) (ft.set i (some e.floor_on)) br.2
        else
          updLoop S b nf pr rest (i + 1) (ft.set i (some e.floor_on)) br.2
      else
        let u := S.uniformNat nf br.2
        updLoop S b nf pr rest (i + 1) (ft.set i (some u.1)) u.2

/-- RandomController::update_floors_to (controller.rs): first pad floors_to
with None up to the number of elevators, refresh num_floors if the building
grew, then run the per-elevator loop. -/
def RandomCtl.update_floors_to {σ : Type} (S : Sampler σ) (c : RandomCtl) (rng : σ) :
    RandomCtl × σ :=
  let ft0 := c.floors_to ++
    List.replicate (c.building.elevators.length - c.floors_to.length) none
  let nf := if c.building.floors.length ≠ c.num_floors
            then c.building.floors.length else c.num_floors
  let r := updLoop S c.building nf c.p_rational c.building.elevators 0 ft0 rng
  ({ c with num_floors := nf, floors_to := r.1 }, r.2)

/-- Application loop of RandomController::update_elevators (controller.rs):
for each cached destination, unwrap it (none models the unwrap panic), index
the elevator (none models an out-of-range index panic), then update its
direction and floor. -/
def applyLoop : List (Option Nat) → Nat → List Elevator → Option (List Elevator)
  | [], _, es => some es
  | none :: _, _, _ => none
  | some dest :: rest, i, es =>
    match es.get? i with
    | none => none
    | some e => applyLoop rest (i + 1) (es.set i ((e.update_direction dest).update_floor))

/-- RandomController::clear_floors_to (controller.rs): for each elevator,
unwrap its cached destination (none models the unwrap panic) and clear it if
the elevator has arrived. -/
def clearLoop : List Elevator → Nat → List (Option Nat) → Option (List (Option Nat))
  | [], _, ft => some ft
  | e :: rest, i, ft =>
    match ft.get? i with
    | none => none
    | some none => none
    | some (some dest) =>
      clearLoop rest (i + 1) (if dest = e.floor_on then ft.set i none else ft)

/-- ElevatorController::update_elevators for RandomController
(controller.rs): update the cached destinations, drive every elevator toward
its cached destination, then clear the destinations of arrived elevators.
The Option result is none exactly when one of the source's unwraps or index
expressions would panic. -/
def RandomCtl.update_elevators {σ : Type} (S : Sampler σ) (c : RandomCtl) (rng : σ) :
    Option (RandomCtl × σ) :=
  let r := c.update_floors_to S rng
  let c1 := r.1
  (applyLoop c1.floors_to 0 c1.building.elevators).bind fun es1 =>
    (clearLoop es1 0 c1.floors_to).map fun ft1 =>
      ({ c1 with building := { c1.building with elevators := es1 }, floors_to := ft1 },
       r.2)

/-- A dispatch policy driving one building, as in spec section 2: either the
nearest-request controller or the random/rational hybrid. -/
inductive Controller where
  | nearest (b : Building)
  | random (c : RandomCtl)

/-- The building owned by a controller. -/
def Controller.building : Controller → Building
  | .nearest b => b
  | .random c => c.building

/-- Replace the building owned by a controller. -/
def Controller.withBuilding : Controller → Building → Controller
  | .nearest _, b => .nearest b
  | .random c, b => .random { c with building := b }

/-- Modelled from the spec: advance_tick (spec sections 4.3 and 6) — the
per-tick composition lives in the excluded external driver, so the canonical
order fixed by the spec is used: dispatch, exchange, departures, ground-floor
flush and tips, arrivals, wait-time increment, predictive scoring, energy
accounting.  Returns none exactly when the dispatch step's unwrap model
does. -/
def advanceTick {σ : Type} (S : Sampler σ) (time_step : Nat) (ctrl : Controller)
    (rng : σ) : Option (Controller × σ) :=
  let dispatch : Option (Controller × σ) :=
    match ctrl with
    | .nearest b => some (Controller.nearest (nearest_update_elevators b), rng)
    | .random c =>
      (c.update_elevators S rng).map
        (fun (r : RandomCtl × σ) => (Controller.random r.1, r.2))
  match dispatch with
  | none => none
  | some step1 =>
    let b1 := step1.1.building.exchange_people_on_elevator
    let gl := floors_gen_people_leaving S b1.floors step1.2
    let b2 := { b1 with floors := gl.1 }
    let ft := b2.flush_and_update_tips S gl.2
    let ar := ft.1.gen_people_arriving S ft.2
    let b5 := ar.1.increment_wait_times
    let b6 := b5.update_dest_probabilities
    let energy := elevators_get_energy_spent b6.elevators
    let b7 := b6.update_average_energy time_step energy
    some (step1.1.withBuilding b7, ar.2)

/-- The telemetry triple the excluded display layer reads each tick. -/
def Building.telemetry (b : Building) : ℚ × ℚ × ℚ :=
  (b.avg_energy, b.avg_wait_time, b.tot_tips)

/-- Run n ticks from the given tick index, collecting the telemetry after
each tick; none if a tick panics. -/
def runTicks {σ : Type} (S : Sampler σ) :
    Nat → Nat → Controller → σ → Option (List (ℚ × ℚ × ℚ))
  | 0, _, _, _ => some []
  | n + 1, t, ctrl, rng =>
    (advanceTick S t ctrl rng).bind fun r =>
      (runTicks S n (t + 1) r.1 r.2).map fun tr => r.1.building.telemetry :: tr

/-- The leave probability as the spec words it for claim C4: the complement
of the product of (1 - p_out) over exactly the passengers at rest on the
floor (floor_on equal to floor_to).  Used only to compare against the code's
Floor.get_p_out. -/
def resting_leave_probability (f : Floor) : ℚ :=
  1 - ((f.people.filter (fun p => p.floor_on == p.floor_to)).map
        (fun p => 1 - p.p_out)).prod

/-- Helper to build a person with the standard constants. -/
def mkPerson (fon fto wait : Nat) : Person :=
  { floor_on := fon, floor_to := fto, is_leaving := false, wait_time := wait,
    p_out := pOutConst, p_tip := pTipConst }

/-- A deterministic test sampler over Nat states, used only to instantiate
witnesses at concrete inputs. -/
def detSampler : Sampler Nat where
  poisson := fun _ r => (r % 2, r + 1)
  bernoulli := fun _ r => (r % 2 == 0, r + 1)
  uniformNat := fun n r => (if n = 0 then 0 else r % n, r + 1)
  binomial := fun _ _ r => ((r % 7 : Nat), r + 1)

/-- Concrete building for the C1 witness: one stopped elevator on floor 0
holding one arrived person with wait time 7, one empty floor. -/
def bC1 : Building :=
  { elevators := [{ floor_on := 0, moving_up := false, stopped := true,
                    people := [mkPerson 0 0 7], capacity := 4,
                    energy_up := 5, energy_down := 5/2, energy_coef := 1/2 }],
    floors := [{ people := [], capacity := 5, dest_prob := 0 }],
    avg_energy := 0, avg_wait_time := 0, tot_tips := 0, wait_time_denom := 0,
    p_in := 1/2 }

/-- Concrete building for C2: three floors, one empty elevator on floor 1
moving up and not stopped, nobody anywhere — none of the four stop
conditions of the claim holds. -/
def bC2 : Building :=
  { elevators := [{ floor_on := 1, moving_up := true, stopped := false,
                    people := [], capacity := 4,
                    energy_up := 5, energy_down := 5/2, energy_coef := 1/2 }],
    floors := [{ people := [], capacity := 5, dest_prob := 0 },
               { people := [], capacity := 5, dest_prob := 0 },
               { people := [], capacity := 5, dest_prob := 0 }],
    avg_energy := 0, avg_wait_time := 0, tot_tips := 0, wait_time_denom := 0,
    p_in := 1/2 }

/-- Concrete elevator for the C3 counterexample: on floor 2 with onboard
destinations 2 (distance 0) and 5 (distance 3). -/
def eC3 : Elevator :=
  { floor_on := 2, moving_up := false, stopped := true,
    people := [mkPerson 2 2 0, mkPerson 2 5 1], capacity := 4,
    energy_up := 5, energy_down := 5/2, energy_coef := 1/2 }

/-- Concrete elevator for the C3 witness: on floor 10 with onboard
destinations 13, 7, 15 at distances 3, 3, 5. -/
def eC3w : Elevator :=
  { floor_on := 10, moving_up := false, stopped := true,
    people := [mkPerson 10 13 1, mkPerson 10 7 2, mkPerson 10 15 3], capacity := 4,
    energy_up := 5, energy_down := 5/2, energy_coef := 1/2 }

/-- Concrete floor for the C4 counterexample: a single waiting passenger
(floor_on 1, floor_to 0) with personal leave probability 1/2. -/
def fC4 : Floor :=
  { people := [{ floor_on := 1, floor_to := 0, is_leaving := false,
                 wait_time := 3, p_out := 1/2, p_tip := 1/2 }],
    capacity := 5, dest_prob := 0 }

/-- Concrete building for C5: an elevator carrying a person already at its
destination (floor_on = floor_to = 1) with wait time 4, and a floor holding a
resting person and a waiting person. -/
def bC5 : Building :=
  { elevators := [{ floor_on := 1, moving_up := false, stopped := false,
                    people := [mkPerson 1 1 4], capacity := 4,
                    energy_up := 5, energy_down := 5/2, energy_coef := 1/2 }],
    floors := [{ people := [mkPerson 0 0 0, mkPerson 0 2 2], capacity := 5,
                 dest_prob := 0 },
               { people := [], capacity := 5, dest_prob := 0 },
               { people := [], capacity := 5, dest_prob := 0 }],
    avg_energy := 0, avg_wait_time := 0, tot_tips := 0, wait_time_denom := 0,
    p_in := 1/2 }

/-- Trivial empty building used where the controller state alone matters. -/
def bEmpty : Building :=
  { elevators := [], floors := [], avg_energy := 0, avg_wait_time := 0,
    tot_tips := 0, wait_time_denom := 0, p_in := 0 }

/-- RandomController for C6, freshly constructed: p_rational 0 and
upgradable true, as RandomController::from initializes them. -/
def cC6 : RandomCtl :=
  { building := bEmpty, num_floors := 0, floors_to := [], p_rational := 0,
    upgradable := true }

/-- Concrete floor list for the C7 witness. -/
def fsC7 : List Floor :=
  [{ people := [mkPerson 0 2 1], capacity := 5, dest_prob := 0 }]

/-- Concrete elevator list for the C7 witness. -/
def esC7 : List Elevator :=
  [{ floor_on := 0, moving_up := false, stopped := true,
     people := [mkPerson 0 2 1], capacity := 5,
     energy_up := 5, energy_down := 5/2, energy_coef := 1/2 }]

/-- Concrete floor for the C8 witness: capacity 2, one person already on. -/
def fC8 : Floor :=
  { people := [mkPerson 0 2 1], capacity := 2, dest_prob := 0 }

/-- Incoming people for the C8 witness: three arrivals, only one fits. -/
def psC8 : List Person := [mkPerson 0 1 0, mkPerson 0 2 0, mkPerson 0 1 0]

/-- Concrete controller for the C9 and C10 witnesses: the hybrid policy on
bC2 with one uncached elevator. -/
def cC10 : RandomCtl :=
  { building := bC2, num_floors := 3, floors_to := [none], p_rational := 1/2,
    upgradable := true }

/- ------------------------------------------------------------------ -/
/- Helper lemmas.                                                      -/
/- ------------------------------------------------------------------ -/

theorem list_get_q_set_ne {α : Type} (l : List α) (a : α) :
    ∀ i j, i ≠ j → (l.set i a).get? j = l.get? j := by
  induction l with
  | nil => intro i j _; simp
  | cons x xs ih =>
    intro i j hij
    cases i with
    | zero =>
      cases j with
      | zero => exact absurd rfl hij
      | succ j => simp [List.set]
    | succ i =>
      cases j with
      | zero => simp [List.set]
      | succ j =>
        simp only [List.set, List.get?]
        exact ih i j (fun h => hij (by rw [h]))

theorem list_get_q_set_self {α : Type} (l : List α) (a : α) :
    ∀ i, i < l.length → (l.set i a).get? i = some a := by
  induction l with
  | nil => intro i h; simp at h
  | cons x xs ih =>
    intro i h
    cases i with
    | zero => simp [List.set]
    | succ i =>
      simp only [List.set, List.get?]
      exact ih i (by simpa using h)

theorem list_getD_eq_get_q {α : Type} (l : List α) (d : α) :
    ∀ i, l.getD i d = (l.get? i).getD d := by
  intro i
  simp [List.getD_eq_getElem?_getD, List.get?_eq_getElem?]

theorem list_getD_set_ne {α : Type} (l : List α) (a d : α) (i j : Nat) (h : i ≠ j) :
    (l.set i a).getD j d = l.getD j d := by
  rw [list_getD_eq_get_q, list_getD_eq_get_q, list_get_q_set_ne l a i j h]

theorem list_getD_set_self {α : Type} (l : List α) (a d : α) (i : Nat)
    (h : i < l.length) :
    (l.set i a).getD i d = a := by
  rw [list_getD_eq_get_q, list_get_q_set_self l a i h]
  rfl

theorem list_getD_set_oob {α : Type} (l : List α) (a d : α) (i : Nat)
    (h : ¬ i < l.length) :
    (l.set i a).getD i d = l.getD i d := by
  rw [List.set_eq_of_length_le (by omega)]

theorem get_aggregate_wait_time_eq_sum (ps : List Person) :
    get_aggregate_wait_time ps = (ps.map (fun p => p.wait_time)).sum := by
  have h : ∀ (l : List Person) (n : Nat),
      l.foldl (fun acc p => acc + p.wait_time) n = n + (l.map (fun p => p.wait_time)).sum := by
    intro l
    induction l with
    | nil => intro n; simp
    | cons p rest ih => intro n; simp [ih, Nat.add_assoc]
  simpa using h ps 0

theorem get_aggregate_wait_time_nil_of_len (ps : List Person)
    (h : ps.length = 0) : get_aggregate_wait_time ps = 0 := by
  rw [List.length_eq_zero] at h
  subst h
  rfl

theorem mem_vec_reset_wait_times (q : Person) (ps : List Person)
    (h : q ∈ vec_reset_wait_times ps) : q.wait_time = 0 := by
  rcases List.mem_map.mp h with ⟨p, _, hq⟩
  rw [← hq]
  rfl

theorem mem_flushEnter_staying (q : Person) :
    ∀ (cap t : Nat) (ps : List Person), q ∈ (flushEnterLoop cap t ps).2 → q ∈ ps := by
  intro cap t ps
  induction ps generalizing t with
  | nil => intro h; simp [flushEnterLoop] at h
  | cons p rest ih =>
    intro h
    by_cases hc : t = cap
    · simpa [flushEnterLoop, hc] using h
    · by_cases hw : p.floor_on = p.floor_to
      · simp only [flushEnterLoop, if_neg hc, if_pos hw, List.mem_cons] at h
        rcases h with h | h
        · exact List.mem_cons.mpr (Or.inl h)
        · exact List.mem_cons.mpr (Or.inr (ih t h))
      · simp only [flushEnterLoop, if_neg hc, if_neg hw] at h
        exact List.mem_cons.mpr (Or.inr (ih (t + 1) h))

theorem mem_floor_extend (q : Person) :
    ∀ (ps : List Person) (f : Floor), q ∈ (Floor.extend f ps).people →
      q ∈ f.people ∨ q ∈ ps := by
  intro ps
  induction ps with
  | nil => intro f h; exact Or.inl h
  | cons p rest ih =>
    intro f h
    by_cases hc : get_num_people f.people = f.capacity
    · simp only [Floor.extend, if_pos hc] at h
      exact Or.inl h
    · simp only [Floor.extend, if_neg hc] at h
      rcases ih _ h with h1 | h1
      · rcases List.mem_append.mp h1 with h2 | h2
        · exact Or.inl h2
        · exact Or.inr (List.mem_cons.mpr (Or.inl (by simpa using h2)))
      · exact Or.inr (List.mem_cons.mpr (Or.inr h1))

/- ------------------------------------------------------------------ -/
/- C2.                                                                 -/
/- ------------------------------------------------------------------ -/

/-- C2: evaluation of the code at the failing input.  In bC2 the single
elevator is moving up on floor 1 of a 3-floor building with nobody on board
and nobody waiting, so none of the four stop conditions (a)-(d) of the claim
holds; the claim says NearestController::update_elevators advances it to
floor 2 and keeps it moving, but the code pushes the elevator's current
floor as its decision (every branch of the moving arm and the fall-through
push floor_on), update_direction reads the equal target as stop, and the
elevator ends stopped on floor 1. -/
theorem c2_moving_elevator_code_behavior :
    (bC2.elevators.getD 0 defaultElevator).stopped = false ∧
    (bC2.elevators.getD 0 defaultElevator).moving_up = true ∧
    (bC2.elevators.getD 0 defaultElevator).floor_on = 1 ∧
    bC2.floors.length = 3 ∧
    are_people_going_to_floor (bC2.elevators.getD 0 defaultElevator).people 1 = false ∧
    are_people_waiting_on_floor bC2.floors 1 = false ∧
    ((nearest_update_elevators bC2).elevators.getD 0 defaultElevator).floor_on = 1 ∧
    ((nearest_update_elevators bC2).elevators.getD 0 defaultElevator).stopped = true := by
  decide

/- ------------------------------------------------------------------ -/
/- C4.                                                                 -/
/- ------------------------------------------------------------------ -/

theorem get_p_out_fold (ps : List Person) :
    ∀ (s : ℚ) (past : List ℚ),
      (ps.foldl
        (fun (acc : ℚ × List ℚ) pers =>
          let inverse_p_outs : ℚ := acc.2.foldl (fun t q => t * (1 - q)) 1
          (acc.1 + pers.p_out * inverse_p_outs, acc.2 ++ [pers.p_out]))
        (s, past)).1 =
      s + (past.foldl (fun t q => t * (1 - q)) 1) *
            (1 - (ps.map (fun p => 1 - p.p_out)).prod) := by
  induction ps with
  | nil => intro s past; simp
  | cons p rest ih =>
    intro s past
    simp only [List.foldl_cons]
    rw [ih]
    have happ : (past ++ [p.p_out]).foldl (fun t q => t * (1 - q)) 1 =
        (past.foldl (fun t q => t * (1 - q)) 1) * (1 - p.p_out) := by
      rw [List.foldl_append]
      rfl
    rw [happ]
    simp only [List.map_cons, List.prod_cons]
    ring

/-- C4 (amended): Floor::get_p_out equals the complement of the product of
(1 - p_out) taken over every passenger on the floor — waiting passengers
included, contrary to the claim's restriction to resting passengers — and it
is 0 for an empty floor.  Floats are modelled as rationals, over which the
source's incremental accumulation is exactly the complement identity. -/
theorem c4_get_p_out_all_passengers (f : Floor) :
    f.get_p_out = 1 - (f.people.map (fun p => 1 - p.p_out)).prod := by
  unfold Floor.get_p_out
  by_cases h : f.people.length = 0
  · rw [List.length_eq_zero] at h
    simp [h]
  · rw [if_neg h, get_p_out_fold]
    simp

/-- C4 counterexample: on the concrete floor fC4 holding a single waiting
passenger with personal leave probability 1/2, the code returns 1/2 while
the claim's resting-passengers-only formula yields 0. -/
theorem c4_counterexample :
    fC4.get_p_out = 1/2 ∧ resting_leave_probability fC4 = 0 ∧
    fC4.get_p_out ≠ resting_leave_probability fC4 := by
  have h1 : fC4.get_p_out = 1/2 := by
    norm_num [fC4, Floor.get_p_out]
  have h2 : resting_leave_probability fC4 = 0 := by
    norm_num [fC4, resting_leave_probability]
  refine ⟨h1, h2, ?_⟩
  rw [h1, h2]
  norm_num

/- ------------------------------------------------------------------ -/
/- C5.                                                                 -/
/- ------------------------------------------------------------------ -/

/-- C5: evaluation of the code at the failing input.  In bC5 the elevator
carries a passenger already at its destination (floor_on = floor_to = 1)
with wait counter 4; the Building-level increment raises it to 5 because the
Vec<Person> increment used for elevators has no waiting filter, contradicting
both the claim and that function's own doc comment.  The floors behave as
claimed: the resting person keeps 0 and the waiting person goes from 2
to 3. -/
theorem c5_elevator_increment_code_behavior :
    ((bC5.elevators.getD 0 defaultElevator).people.getD 0 (mkPerson 0 0 0)).floor_on =
      ((bC5.elevators.getD 0 defaultElevator).people.getD 0 (mkPerson 0 0 0)).floor_to ∧
    ((bC5.elevators.getD 0 defaultElevator).people.getD 0 (mkPerson 0 0 0)).wait_time = 4 ∧
    (((bC5.increment_wait_times).elevators.getD 0 defaultElevator).people.getD 0
        (mkPerson 0 0 0)).wait_time = 5 ∧
    (((bC5.increment_wait_times).floors.getD 0 defaultFloor).people.map
        (fun p => p.wait_time)) = [0, 3] := by
  decide

/- ------------------------------------------------------------------ -/
/- C6.                                                                 -/
/- ------------------------------------------------------------------ -/

theorem upgrade_p_rational (c : RandomCtl) (x : ℚ) :
    (c.upgrade x).p_rational = if c.p_rational + x > 1 then 1 else c.p_rational + x := rfl

theorem upgrade_upgradable (c : RandomCtl) (x : ℚ) :
    (c.upgrade x).upgradable = c.upgradable := rfl

theorem can_be_upgraded_eq (c : RandomCtl) :
    c.can_be_upgraded = if c.p_rational ≥ 1 then false else c.upgradable := rfl

/-- C6 counterexample: starting from p_rational = 0, after the third
increment by 0.3 the controller sits at 9/10, which is not 1, and
can_be_upgraded is still true — the claim's "reaches exactly 1.0 after the
third increment" fails on the code (its own parenthetical trajectory shows
1.0 as the fourth value). -/
theorem c6_counterexample :
    (((cC6.upgrade (3/10)).upgrade (3/10)).upgrade (3/10)).p_rational = 9/10 ∧
    (((cC6.upgrade (3/10)).upgrade (3/10)).upgrade (3/10)).p_rational ≠ 1 ∧
    RandomCtl.can_be_upgraded (((cC6.upgrade (3/10)).upgrade (3/10)).upgrade (3/10)) = true := by
  have h3 : (((cC6.upgrade (3/10)).upgrade (3/10)).upgrade (3/10)).p_rational = 9/10 := by
    simp only [upgrade_p_rational, cC6]
    norm_num
  refine ⟨h3, by rw [h3]; norm_num, ?_⟩
  rw [can_be_upgraded_eq, h3]
  simp only [upgrade_upgradable, cC6]
  norm_num

/-- C6 (amended): from p_rational = 0 the 0.3-increment trajectory is
0.3, 0.6, 0.9, and exactly 1.0 after the FOURTH increment (capped), at which
point and not before can_be_upgraded becomes false; upgrade never pushes
p_rational above 1, and for an upgradable controller can_be_upgraded is
false exactly when p_rational has reached 1. -/
theorem c6_upgrade_saturation :
    (cC6.upgrade (3/10)).p_rational = 3/10 ∧
    ((cC6.upgrade (3/10)).upgrade (3/10)).p_rational = 3/5 ∧
    (((cC6.upgrade (3/10)).upgrade (3/10)).upgrade (3/10)).p_rational = 9/10 ∧
    RandomCtl.can_be_upgraded (((cC6.upgrade (3/10)).upgrade (3/10)).upgrade (3/10)) = true ∧
    ((((cC6.upgrade (3/10)).upgrade (3/10)).upgrade (3/10)).upgrade (3/10)).p_rational = 1 ∧
    RandomCtl.can_be_upgraded
      ((((cC6.upgrade (3/10)).upgrade (3/10)).upgrade (3/10)).upgrade (3/10)) = false ∧
    (∀ (c : RandomCtl) (inc : ℚ), c.p_rational ≤ 1 → (c.upgrade inc).p_rational ≤ 1) ∧
    (∀ c : RandomCtl, c.upgradable = true →
       (c.can_be_upgraded = false ↔ 1 ≤ c.p_rational)) := by
  have h1 : (cC6.upgrade (3/10)).p_rational = 3/10 := by
    simp only [upgrade_p_rational, cC6]
    norm_num
  have h2 : ((cC6.upgrade (3/10)).upgrade (3/10)).p_rational = 3/5 := by
    simp only [upgrade_p_rational, cC6]
    norm_num
  have h3 : (((cC6.upgrade (3/10)).upgrade (3/10)).upgrade (3/10)).p_rational = 9/10 := by
    simp only [upgrade_p_rational, cC6]
    norm_num
  have h4 : ((((cC6.upgrade (3/10)).upgrade (3/10)).upgrade (3/10)).upgrade (3/10)).p_rational
      = 1 := by
    simp only [upgrade_p_rational, cC6]
    norm_num
  refine ⟨h1, h2, h3, ?_, h4, ?_, ?_, ?_⟩
  · rw [can_be_upgraded_eq, h3]
    simp only [upgrade_upgradable, cC6]
    norm_num
  · rw [can_be_upgraded_eq, h4]
    norm_num
  · intro c inc h
    rw [upgrade_p_rational]
    by_cases hgt : c.p_rational + inc > 1
    · simp [hgt]
    · simp only [if_neg hgt]
      linarith [not_lt.mp hgt]
  · intro c hu
    rw [can_be_upgraded_eq]
    by_cases hge : c.p_rational ≥ 1
    · simp [hge]
    · simp [hge, hu]

/-- C6 witness: the universally quantified parts of c6_upgrade_saturation
instantiated at the concrete controller cC10 (p_rational 1/2, upgradable). -/
theorem c6_witness :
    (cC10.upgrade (1/2)).p_rational ≤ 1 ∧
    (RandomCtl.can_be_upgraded cC10 = false ↔ 1 ≤ cC10.p_rational) :=
  ⟨c6_upgrade_saturation.2.2.2.2.2.2.1 cC10 (1/2) (by norm_num [cC10]),
   c6_upgrade_saturation.2.2.2.2.2.2.2 cC10 rfl⟩

/- ------------------------------------------------------------------ -/
/- C7.                                                                 -/
/- ------------------------------------------------------------------ -/

/-- C7: update_capacities on floors and on elevators.  If the requested
capacity is strictly below some member's occupancy, the collection is
returned entirely unchanged (capacities and occupant sequences); if it is at
least every member's occupancy, every capacity becomes the request and each
member is otherwise untouched, in particular every occupant sequence. -/
theorem c7_update_capacities (fs : List Floor) (es : List Elevator) (c : Nat) :
    ((∃ f ∈ fs, c < f.people.length) → floors_update_capacities fs c = fs) ∧
    ((∀ f ∈ fs, f.people.length ≤ c) →
       floors_update_capacities fs c = fs.map (fun f => { f with capacity := c })) ∧
    ((∃ e ∈ es, c < e.people.length) → elevators_update_capacities es c = es) ∧
    ((∀ e ∈ es, e.people.length ≤ c) →
       elevators_update_capacities es c = es.map (fun e => { e with capacity := c })) := by
  refine ⟨?_, ?_, ?_, ?_⟩
  · rintro ⟨f, hf, hlt⟩
    unfold floors_update_capacities
    have hall : fs.all (fun f => !(c < get_num_people f.people)) = false := by
      cases hac : fs.all (fun f => !(c < get_num_people f.people)) with
      | false => rfl
      | true =>
        have := List.all_eq_true.mp hac f hf
        simp [get_num_people] at this
        omega
    simp [hall]
  · intro h
    unfold floors_update_capacities
    have hall : fs.all (fun f => !(c < get_num_people f.people)) = true :=
      List.all_eq_true.mpr (fun f hf => by
        simp [get_num_people]
        exact h f hf)
    simp [hall]
  · rintro ⟨e, he, hlt⟩
    unfold elevators_update_capacities
    have hall : es.all (fun e => !(c < get_num_people e.people)) = false := by
      cases hac : es.all (fun e => !(c < get_num_people e.people)) with
      | false => rfl
      | true =>
        have := List.all_eq_true.mp hac e he
        simp [get_num_people] at this
        omega
    simp [hall]
  · intro h
    unfold elevators_update_capacities
    have hall : es.all (fun e => !(c < get_num_people e.people)) = true :=
      List.all_eq_true.mpr (fun e he => by
        simp [get_num_people]
        exact h e he)
    simp [hall]

/-- C7 witness: on the concrete one-member collections fsC7 and esC7 (one
occupant each), requesting capacity 0 changes nothing and requesting
capacity 7 rewrites only the capacity fields. -/
theorem c7_witness :
    floors_update_capacities fsC7 0 = fsC7 ∧
    elevators_update_capacities esC7 0 = esC7 ∧
    floors_update_capacities fsC7 7 = fsC7.map (fun f => { f with capacity := 7 }) ∧
    elevators_update_capacities esC7 7 = esC7.map (fun e => { e with capacity := 7 }) :=
  ⟨(c7_update_capacities fsC7 esC7 0).1 (by decide),
   (c7_update_capacities fsC7 esC7 0).2.2.1 (by decide),
   (c7_update_capacities fsC7 esC7 7).2.1 (by decide),
   (c7_update_capacities fsC7 esC7 7).2.2.2 (by decide)⟩

/- ------------------------------------------------------------------ -/
/- C8.                                                                 -/
/- ------------------------------------------------------------------ -/

theorem floor_extend_spec (ps : List Person) :
    ∀ f : Floor, f.people.length ≤ f.capacity →
      (Floor.extend f ps).people =
        f.people ++ ps.take (f.capacity - f.people.length) ∧
      (Floor.extend f ps).capacity = f.capacity := by
  induction ps with
  | nil => intro f _; simp [Floor.extend]
  | cons p rest ih =>
    intro f h
    by_cases hc : get_num_people f.people = f.capacity
    · have hz : f.capacity - f.people.length = 0 := by
        simp [get_num_people] at hc
        omega
      simp [Floor.extend, hc, hz]
    · have hlt : f.people.length < f.capacity := by
        simp [get_num_people] at hc
        omega
      have h1 : (f.people ++ [p]).length ≤ f.capacity := by
        simp
        omega
      have ihr := ih { f with people := f.people ++ [p] } h1
      simp only [Floor.extend, if_neg hc]
      refine ⟨?_, ihr.2⟩
      rw [ihr.1]
      simp only [List.length_append, List.length_cons, List.length_nil]
      rw [List.append_assoc]
      congr 1
      have : f.capacity - f.people.length = (f.capacity - (f.people.length + 1)) + 1 := by
        omega
      rw [this, List.take_succ_cons]
      rfl

/-- C8: for a floor respecting the occupancy invariant, Extend admits exactly
the longest prefix of the incoming sequence fitting the free capacity,
appended in order, silently dropping the rest, and the occupancy invariant is
preserved (with the capacity field untouched). -/
theorem c8_floor_extend (f : Floor) (ps : List Person)
    (h : f.people.length ≤ f.capacity) :
    (Floor.extend f ps).people =
      f.people ++ ps.take (f.capacity - f.people.length) ∧
    (Floor.extend f ps).people.length ≤ f.capacity ∧
    (Floor.extend f ps).capacity = f.capacity := by
  obtain ⟨hp, hcap⟩ := floor_extend_spec ps f h
  refine ⟨hp, ?_, hcap⟩
  rw [hp]
  simp [List.length_take]
  omega

/-- C8 witness: floor fC8 (capacity 2, one occupant) extended with the three
people of psC8 admits exactly the first of them. -/
theorem c8_witness :
    (Floor.extend fC8 psC8).people =
      fC8.people ++ psC8.take (fC8.capacity - fC8.people.length) ∧
    (Floor.extend fC8 psC8).people.length ≤ fC8.capacity ∧
    (Floor.extend fC8 psC8).capacity = fC8.capacity :=
  c8_floor_extend fC8 psC8 (by decide)

/- ------------------------------------------------------------------ -/
/- C3.                                                                 -/
/- ------------------------------------------------------------------ -/

theorem distN_eq_zero_iff (a b : Nat) : distN a b = 0 ↔ a = b := by
  unfold distN
  split <;> omega

theorem nearest_fold_spec (fl : Nat) (l : List Nat) :
    ∀ v m : Nat, m ≠ 0 → (∀ d ∈ l, distN fl d ≠ 0) →
      (l.foldl (nearestStep fl) (v, m)).2 ≤ m ∧
      (∀ d ∈ l, (l.foldl (nearestStep fl) (v, m)).2 ≤ distN fl d) ∧
      (l.foldl (nearestStep fl) (v, m)).2 ≠ 0 ∧
      (((l.foldl (nearestStep fl) (v, m)).2 = m ∧
        (l.foldl (nearestStep fl) (v, m)).1 = v) ∨
       ((l.foldl (nearestStep fl) (v, m)).2 < m ∧
        (l.filter (fun d => distN fl d == (l.foldl (nearestStep fl) (v, m)).2)).head? =
          some (l.foldl (nearestStep fl) (v, m)).1)) := by
  induction l with
  | nil =>
    intro v m hm _
    exact ⟨Nat.le_refl m, by intro d hd; simp at hd, hm, Or.inl ⟨rfl, rfl⟩⟩
  | cons d l ih =>
    intro v m hm hdz
    have hd0 : distN fl d ≠ 0 := hdz d (List.mem_cons_self d l)
    have hdz2 : ∀ x ∈ l, distN fl x ≠ 0 := fun x hx => hdz x (List.mem_cons_of_mem d hx)
    by_cases hlt : distN fl d < m
    · have hstep : nearestStep fl (v, m) d = (d, distN fl d) := by
        simp [nearestStep, hlt]
      rw [List.foldl_cons, hstep]
      obtain ⟨ha, hb, hc, hd⟩ := ih d (distN fl d) hd0 hdz2
      refine ⟨le_of_lt (lt_of_le_of_lt ha hlt), ?_, hc, Or.inr ⟨lt_of_le_of_lt ha hlt, ?_⟩⟩
      · intro x hx
        rcases List.mem_cons.mp hx with hx | hx
        · rw [hx]; exact ha
        · exact hb x hx
      · rcases hd with ⟨heq, hfst⟩ | ⟨hlt2, hhead⟩
        · rw [List.filter_cons, if_pos (by simp [heq]), List.head?_cons, hfst]
        · rw [List.filter_cons, if_neg (by simp; omega)]
          exact hhead
    · have hstep : nearestStep fl (v, m) d = (v, m) := by
        simp only [nearestStep]
        rw [if_neg]
        push_neg
        exact ⟨hm, not_lt.mp hlt⟩
      rw [List.foldl_cons, hstep]
      obtain ⟨ha, hb, hc, hd⟩ := ih v m hm hdz2
      refine ⟨ha, ?_, hc, ?_⟩
      · intro x hx
        rcases List.mem_cons.mp hx with hx | hx
        · rw [hx]; exact le_trans ha (not_lt.mp hlt)
        · exact hb x hx
      · rcases hd with ⟨heq, hfst⟩ | ⟨hlt2, hhead⟩
        · exact Or.inl ⟨heq, hfst⟩
        · refine Or.inr ⟨hlt2, ?_⟩
          rw [List.filter_cons, if_neg (by simp; have := not_lt.mp hlt; omega)]
          exact hhead

/-- C3 (amended): Elevator::get_nearest_dest_floor returns (0,0) for an
empty elevator; and for a nonempty elevator on which no onboard passenger is
destined for the current floor (the reachable situation: arrived passengers
are flushed before the controller queries), it returns the minimum absolute
distance together with the first destination in iteration order attaining
it.  The restriction is forced by the 0-as-unassigned sentinel: a
destination at distance 0 re-opens the incumbent, breaking minimality (see
the counterexample). -/
theorem c3_nearest_dest_floor (e : Elevator) :
    (e.people = [] → e.get_nearest_dest_floor = (0, 0)) ∧
    (e.people ≠ [] → (∀ p ∈ e.people, p.floor_to ≠ e.floor_on) →
      (∀ d ∈ get_dest_floors e.people,
         e.get_nearest_dest_floor.2 ≤ distN e.floor_on d) ∧
      ((get_dest_floors e.people).filter
          (fun d => distN e.floor_on d == e.get_nearest_dest_floor.2)).head? =
        some e.get_nearest_dest_floor.1) := by
  constructor
  · intro h
    simp [Elevator.get_nearest_dest_floor, get_dest_floors, h]
  · intro hne hnz
    have hdz : ∀ d ∈ get_dest_floors e.people, distN e.floor_on d ≠ 0 := by
      intro d hd
      rcases List.mem_map.mp hd with ⟨p, hp, hpd⟩
      intro h0
      exact hnz p hp (by rw [← hpd] at h0; exact ((distN_eq_zero_iff _ _).mp h0).symm)
    rcases hp : e.people with _ | ⟨p, ps⟩
    · exact absurd hp hne
    · have hdest : get_dest_floors e.people = p.floor_to :: get_dest_floors ps := by
        rw [hp]; rfl
      have hd1 : distN e.floor_on p.floor_to ≠ 0 := by
        apply hdz
        rw [hdest]
        exact List.mem_cons_self _ _
      have hdz2 : ∀ d ∈ get_dest_floors ps, distN e.floor_on d ≠ 0 := by
        intro d hd
        apply hdz
        rw [hdest]
        exact List.mem_cons_of_mem _ hd
      have hres : e.get_nearest_dest_floor =
          (get_dest_floors ps).foldl (nearestStep e.floor_on)
            (p.floor_to, distN e.floor_on p.floor_to) := by
        rw [Elevator.get_nearest_dest_floor, hdest]
        rw [if_neg (by simp), List.foldl_cons]
        have : nearestStep e.floor_on (0, 0) p.floor_to =
            (p.floor_to, distN e.floor_on p.floor_to) := by
          simp [nearestStep]
        rw [this]
      obtain ⟨ha, hb, _, hd⟩ :=
        nearest_fold_spec e.floor_on (get_dest_floors ps) p.floor_to
          (distN e.floor_on p.floor_to) hd1 hdz2
      have hdcons : get_dest_floors (p :: ps) = p.floor_to :: get_dest_floors ps := rfl
      constructor
      · intro d hdm
        rw [hres]
        rw [hdcons] at hdm
        rcases List.mem_cons.mp hdm with h | h
        · rw [h]; exact ha
        · exact hb d h
      · rw [hres, hdcons]
        rcases hd with ⟨heq, hfst⟩ | ⟨hlt2, hhead⟩
        · rw [List.filter_cons, if_pos (by simp [heq]), List.head?_cons, hfst]
        · rw [List.filter_cons, if_neg (by simp; omega)]
          exact hhead

/-- C3 witness: the spec's own tie-break test — an elevator on floor 10 with
onboard destinations 13, 7, 15 at distances 3, 3, 5; the result attains the
minimum distance and is the first distance-3 destination in iteration order
(namely 13, the lower-indexed of the two). -/
theorem c3_witness :
    (∀ d ∈ get_dest_floors eC3w.people,
       eC3w.get_nearest_dest_floor.2 ≤ distN eC3w.floor_on d) ∧
    ((get_dest_floors eC3w.people).filter
        (fun d => distN eC3w.floor_on d == eC3w.get_nearest_dest_floor.2)).head? =
      some eC3w.get_nearest_dest_floor.1 :=
  (c3_nearest_dest_floor eC3w).2 (by decide) (by decide)

/- ------------------------------------------------------------------ -/
/- C1.                                                                 -/
/- ------------------------------------------------------------------ -/

theorem get_aggregate_wait_time_nil : get_aggregate_wait_time [] = 0 := rfl

theorem flush_fst_of_stopped (e : Elevator) (hs : e.stopped = true) :
    e.flush_people_leaving_elevator.1 = elevatorExited e := by
  simp [Elevator.flush_people_leaving_elevator, elevatorExited, hs]

theorem elevatorExited_of_not_stopped (e : Elevator) (hs : e.stopped = false) :
    elevatorExited e = [] := by
  simp [elevatorExited, hs]

theorem exitedCount_cons (e : Elevator) (es : List Elevator) :
    exitedCount (e :: es) = (elevatorExited e).length + exitedCount es := by
  simp [exitedCount]

theorem exitedWait_cons (e : Elevator) (es : List Elevator) :
    exitedWait (e :: es) =
      get_aggregate_wait_time (elevatorExited e) + exitedWait es := by
  simp [exitedWait]

theorem exchangeStep_denom (fs : List Floor) (avg : ℚ) (denom : Nat) (e : Elevator)
    (hs : e.stopped = true) :
    (exchangeStep fs avg denom e).2.2.2 = denom + (elevatorExited e).length := by
  simp [exchangeStep, get_num_people, flush_fst_of_stopped e hs]

theorem exchangeStep_avg (fs : List Floor) (avg : ℚ) (denom : Nat) (e : Elevator)
    (hs : e.stopped = true) :
    (exchangeStep fs avg denom e).2.2.1 =
      (if ((elevatorExited e).length : ℚ) + (denom : ℚ) = 0 then 0
       else ((get_aggregate_wait_time (elevatorExited e) : ℚ) + avg * (denom : ℚ)) /
            (((elevatorExited e).length : ℚ) + (denom : ℚ))) := by
  simp [exchangeStep, get_num_people, flush_fst_of_stopped e hs]

theorem exchangeStep_floors_mem (fs : List Floor) (avg : ℚ) (denom : Nat)
    (e : Elevator) :
    ∀ i q, q ∈ ((exchangeStep fs avg denom e).2.1.getD i defaultFloor).people →
      q ∈ (fs.getD i defaultFloor).people ∨ q.wait_time = 0 := by
  intro i q hq
  simp only [exchangeStep] at hq
  by_cases hi : e.floor_on = i
  · subst hi
    by_cases hlen : e.floor_on < fs.length
    · rw [list_getD_set_self _ _ _ _ hlen] at hq
      rcases mem_floor_extend q _ _ hq with h | h
      · simp only [Floor.flush_people_entering_elevator] at h
        exact Or.inl (mem_flushEnter_staying q _ _ _ h)
      · exact Or.inr (mem_vec_reset_wait_times q _ h)
    · rw [list_getD_set_oob _ _ _ _ hlen] at hq
      exact Or.inl hq
  · rw [list_getD_set_ne _ _ _ _ _ hi] at hq
    exact Or.inl hq

theorem exchangeLoop_spec (es : List Elevator) :
    ∀ (fs : List Floor) (avg : ℚ) (denom : Nat), (denom = 0 → avg = 0) →
      (exchangeLoop es fs avg denom).2.2.2 = denom + exitedCount es ∧
      ((exchangeLoop es fs avg denom).2.2.1 =
        if denom + exitedCount es = 0 then 0
        else (avg * (denom : ℚ) + (exitedWait es : ℚ)) /
             ((denom : ℚ) + (exitedCount es : ℚ))) ∧
      (∀ i q, q ∈ ((exchangeLoop es fs avg denom).2.1.getD i defaultFloor).people →
        q ∈ (fs.getD i defaultFloor).people ∨ q.wait_time = 0) := by
  induction es with
  | nil =>
    intro fs avg denom hinv
    have hc : exitedCount ([] : List Elevator) = 0 := rfl
    have hw : exitedWait ([] : List Elevator) = 0 := rfl
    refine ⟨by simp [exchangeLoop, hc], ?_, ?_⟩
    · show avg = _
      rw [hc, hw]
      by_cases hd : denom = 0
      · simp [hd, hinv hd]
      · have hdq : (denom : ℚ) ≠ 0 := Nat.cast_ne_zero.mpr hd
        rw [if_neg (by omega)]
        push_cast
        rw [add_zero, add_zero, mul_div_assoc, div_self hdq, mul_one]
    · intro i q hq
      exact Or.inl hq
  | cons e es ih =>
    intro fs avg denom hinv
    cases hs : e.stopped with
    | false =>
      obtain ⟨ihd, iha, ihm⟩ := ih fs avg denom hinv
      have hex : elevatorExited e = [] := elevatorExited_of_not_stopped e hs
      have hr : exchangeLoop (e :: es) fs avg denom =
          (e :: (exchangeLoop es fs avg denom).1, (exchangeLoop es fs avg denom).2) := by
        simp [exchangeLoop, hs]
      rw [hr]
      refine ⟨?_, ?_, ?_⟩
      · simpa [exitedCount_cons, hex] using ihd
      · simpa [exitedCount_cons, exitedWait_cons, hex, get_aggregate_wait_time_nil]
          using iha
      · exact ihm
    | true =>
      have hr : exchangeLoop (e :: es) fs avg denom =
          ((exchangeStep fs avg denom e).1 ::
            (exchangeLoop es (exchangeStep fs avg denom e).2.1
              (exchangeStep fs avg denom e).2.2.1 (exchangeStep fs avg denom e).2.2.2).1,
           (exchangeLoop es (exchangeStep fs avg denom e).2.1
              (exchangeStep fs avg denom e).2.2.1 (exchangeStep fs avg denom e).2.2.2).2) := by
        simp [exchangeLoop, hs]
      have hsd := exchangeStep_denom fs avg denom e hs
      have hsa := exchangeStep_avg fs avg denom e hs
      have hinv1 : (exchangeStep fs avg denom e).2.2.2 = 0 →
          (exchangeStep fs avg denom e).2.2.1 = 0 := by
        rw [hsd, hsa]
        intro h0
        have hn : (elevatorExited e).length = 0 ∧ denom = 0 := by omega
        rw [if_pos (by rw [hn.1, hn.2]; push_cast; ring)]
      obtain ⟨ihd, iha, ihm⟩ :=
        ih (exchangeStep fs avg denom e).2.1 (exchangeStep fs avg denom e).2.2.1
          (exchangeStep fs avg denom e).2.2.2 hinv1
      rw [hr]
      have havgmul :
          (exchangeStep fs avg denom e).2.2.1 * (((exchangeStep fs avg denom e).2.2.2 : Nat) : ℚ) =
            avg * (denom : ℚ) + (get_aggregate_wait_time (elevatorExited e) : ℚ) := by
        rw [hsd, hsa]
        by_cases hnd : ((elevatorExited e).length : ℚ) + (denom : ℚ) = 0
        · have hnat : (elevatorExited e).length + denom = 0 := by exact_mod_cast hnd
          have hn : (elevatorExited e).length = 0 := by omega
          have hd0 : denom = 0 := by omega
          rw [if_pos hnd, hd0, hn,
            get_aggregate_wait_time_nil_of_len _ (List.length_eq_zero.mpr
              (List.length_eq_zero.mp hn)) ]
          push_cast
          ring
        · rw [if_neg hnd]
          push_cast
          rw [div_mul_eq_mul_div, div_eq_iff (by intro h; exact hnd (by linarith))]
          ring
      refine ⟨?_, ?_, ?_⟩
      · show (exchangeLoop es (exchangeStep fs avg denom e).2.1
              (exchangeStep fs avg denom e).2.2.1 (exchangeStep fs avg denom e).2.2.2).2.2.2 = _
        rw [ihd, hsd, exitedCount_cons]
        omega
      · show (exchangeLoop es (exchangeStep fs avg denom e).2.1
              (exchangeStep fs avg denom e).2.2.1 (exchangeStep fs avg denom e).2.2.2).2.2.1 = _
        rw [iha, exitedCount_cons, exitedWait_cons]
        by_cases hz : denom + ((elevatorExited e).length + exitedCount es) = 0
        · rw [if_pos hz, if_pos (by rw [hsd]; omega)]
        · rw [if_neg hz, if_neg (by rw [hsd]; omega)]
          rw [havgmul, hsd]
          push_cast
          ring_nf
      · intro i q hq
        rcases ihm i q hq with h | h
        · exact exchangeStep_floors_mem fs avg denom e i q h
        · exact Or.inr h

/-- C1: after Building::exchange_people_on_elevator, the wait-time
denominator grows by the number of passengers who just exited stopped
elevators; the running average equals the folded weighted average (previous
sum, i.e. avg times denominator, plus the exited passengers' wait times,
over the previous denominator plus their count), yielding 0 when that
denominator is 0 — which, with the preserved zero-denominator invariant, is
exactly why the f64 computation (modelled here over the rationals) never
divides 0 by 0 and so never produces NaN, including on ticks where nobody
disembarks; and every passenger put back on a floor is either a previous
occupant of that floor or carries a wait counter reset to 0. -/
theorem c1_exchange_wait_average (b : Building)
    (hinv : b.wait_time_denom = 0 → b.avg_wait_time = 0) :
    b.exchange_people_on_elevator.wait_time_denom =
      b.wait_time_denom + exitedCount b.elevators ∧
    (b.exchange_people_on_elevator.avg_wait_time =
      if b.wait_time_denom + exitedCount b.elevators = 0 then 0
      else (b.avg_wait_time * (b.wait_time_denom : ℚ) + (exitedWait b.elevators : ℚ)) /
           ((b.wait_time_denom : ℚ) + (exitedCount b.elevators : ℚ))) ∧
    (b.exchange_people_on_elevator.wait_time_denom = 0 →
      b.exchange_people_on_elevator.avg_wait_time = 0) ∧
    (∀ i q, q ∈ (b.exchange_people_on_elevator.floors.getD i defaultFloor).people →
      q ∈ (b.floors.getD i defaultFloor).people ∨ q.wait_time = 0) := by
  obtain ⟨hd, ha, hm⟩ :=
    exchangeLoop_spec b.elevators b.floors b.avg_wait_time b.wait_time_denom hinv
  refine ⟨hd, ha, ?_, hm⟩
  intro h0
  have hz : b.wait_time_denom + exitedCount b.elevators = 0 := by
    rw [← hd]; exact h0
  show (exchangeLoop b.elevators b.floors b.avg_wait_time b.wait_time_denom).2.2.1 = 0
  rw [ha, if_pos hz]

/-- C1 witness: the concrete building bC1 (one stopped elevator holding one
arrived passenger with wait time 7, zero prior denominator) instantiating
c1_exchange_wait_average; the exchange folds the 7 into the average with
denominator 1 and puts the passenger back with a zeroed counter. -/
theorem c1_witness :
    bC1.exchange_people_on_elevator.wait_time_denom =
      bC1.wait_time_denom + exitedCount bC1.elevators ∧
    (bC1.exchange_people_on_elevator.avg_wait_time =
      if bC1.wait_time_denom + exitedCount bC1.elevators = 0 then 0
      else (bC1.avg_wait_time * (bC1.wait_time_denom : ℚ) + (exitedWait bC1.elevators : ℚ)) /
           ((bC1.wait_time_denom : ℚ) + (exitedCount bC1.elevators : ℚ))) ∧
    (bC1.exchange_people_on_elevator.wait_time_denom = 0 →
      bC1.exchange_people_on_elevator.avg_wait_time = 0) ∧
    (∀ i q, q ∈ (bC1.exchange_people_on_elevator.floors.getD i defaultFloor).people →
      q ∈ (bC1.floors.getD i defaultFloor).people ∨ q.wait_time = 0) :=
  c1_exchange_wait_average bC1 (fun _ => rfl)

/-- C3 counterexample: elevator eC3 sits on floor 2 with onboard
destinations 2 (distance 0) and 5 (distance 3).  The claim says the returned
distance is the minimum absolute distance over onboard destinations, i.e. 0;
the code returns (5, 3) because the first iteration leaves the tracked
minimum at the 0 sentinel and the second overwrites the incumbent. -/
theorem c3_counterexample :
    eC3.get_nearest_dest_floor = (5, 3) ∧
    2 ∈ get_dest_floors eC3.people ∧
    distN eC3.floor_on 2 = 0 ∧
    ¬ (∀ d ∈ get_dest_floors eC3.people,
         eC3.get_nearest_dest_floor.2 ≤ distN eC3.floor_on d) := by
  decide

/- ------------------------------------------------------------------ -/
/- C9.                                                                 -/
/- ------------------------------------------------------------------ -/

/-- C9: end-to-end determinism.  The embedded tick pipeline mirrors the
source in threading every sampling call through the explicitly supplied
pseudo-random source (a parameter or the controller's owned seeded StdRng) —
there is no ambient generator in the model because there is none in the
source — so a whole run is a pure function of the construction parameters,
the policy, the tick count and the seed: two runs with equal seeds produce
equal avg_energy, avg_wait_time and tot_tips trajectories, for every sampler
implementation, policy and starting state. -/
theorem c9_deterministic_runs {σ : Type} (S : Sampler σ) (n t : Nat)
    (ctrl : Controller) (seed1 seed2 : σ) (h : seed1 = seed2) :
    runTicks S n t ctrl seed1 = runTicks S n t ctrl seed2 := by
  subst h
  rfl

/-- C9 witness: two-tick runs of both policies from concrete states with the
concrete deterministic sampler and equal seeds coincide. -/
theorem c9_witness :
    runTicks detSampler 2 0 (Controller.nearest bC1) 5 =
      runTicks detSampler 2 0 (Controller.nearest bC1) 5 ∧
    runTicks detSampler 2 0 (Controller.random cC10) 5 =
      runTicks detSampler 2 0 (Controller.random cC10) 5 :=
  ⟨c9_deterministic_runs detSampler 2 0 (Controller.nearest bC1) 5 5 rfl,
   c9_deterministic_runs detSampler 2 0 (Controller.random cC10) 5 5 rfl⟩

/- ------------------------------------------------------------------ -/
/- C10.                                                                -/
/- ------------------------------------------------------------------ -/

theorem updLoop_length {σ : Type} (S : Sampler σ) (b : Building) (nf : Nat) (pr : ℚ)
    (es : List Elevator) :
    ∀ (i : Nat) (ft : List (Option Nat)) (rng : σ),
      (updLoop S b nf pr es i ft rng).1.length = ft.length := by
  induction es with
  | nil => intro i ft rng; rfl
  | cons e rest ih =>
    intro i ft rng
    cases hft : ft.getD i none with
    | some v =>
      simp only [updLoop, hft]
      exact ih _ _ _
    | none =>
      simp only [updLoop, hft]
      split
      · split
        · split
          · simp [ih, List.length_set]
          · split
            · simp [ih, List.length_set]
            · simp [ih, List.length_set]
        · simp [ih, List.length_set]
      · simp [ih, List.length_set]

theorem updLoop_isSome {σ : Type} (S : Sampler σ) (b : Building) (nf : Nat) (pr : ℚ)
    (es : List Elevator) :
    ∀ (i : Nat) (ft : List (Option Nat)) (rng : σ) (j : Nat), j < ft.length →
      ((ft.getD j none).isSome = true ∨ (i ≤ j ∧ j < i + es.length)) →
      ((updLoop S b nf pr es i ft rng).1.getD j none).isSome = true := by
  induction es with
  | nil =>
    intro i ft rng j hj hd
    rcases hd with hd | hd
    · exact hd
    · simp only [List.length_nil] at hd
      omega
  | cons e rest ih =>
    intro i ft rng j hj hd
    simp only [List.length_cons] at hd
    cases hft : ft.getD i none with
    | some v =>
      simp only [updLoop, hft]
      apply ih (i + 1) ft rng j hj
      rcases hd with hd2 | hd2
      · exact Or.inl hd2
      · by_cases hij : i = j
        · subst hij
          left
          rw [hft]
          rfl
        · right
          omega
    | none =>
      have hgen : ∀ (x : Nat) (rng2 : σ),
          ((updLoop S b nf pr rest (i + 1) (ft.set i (some x)) rng2).1.getD j
            none).isSome = true := by
        intro x rng2
        apply ih (i + 1) (ft.set i (some x)) rng2 j (by rw [List.length_set]; exact hj)
        by_cases hij : i = j
        · subst hij
          left
          rw [list_getD_set_self _ _ _ _ hj]
          rfl
        · rcases hd with hd2 | hd2
          · left
            rw [list_getD_set_ne _ _ _ _ _ hij]
            exact hd2
          · right
            omega
      simp only [updLoop, hft]
      split
      · split
        · split
          · exact hgen _ _
          · split
            · exact hgen _ _
            · exact hgen _ _
        · exact hgen _ _
      · exact hgen _ _

theorem applyLoop_isSome (fts : List (Option Nat)) :
    ∀ (i : Nat) (es : List Elevator), (∀ o ∈ fts, o.isSome = true) →
      i + fts.length ≤ es.length → (applyLoop fts i es).isSome = true := by
  induction fts with
  | nil => intro i es _ _; rfl
  | cons o rest ih =>
    intro i es hall hlen
    cases o with
    | none =>
      have := hall none (List.mem_cons_self _ _)
      simp at this
    | some dest =>
      have hi : i < es.length := by simp only [List.length_cons] at hlen; omega
      have he : es.get? i = some (es.get ⟨i, hi⟩) := List.get?_eq_get hi
      simp only [applyLoop]
      rw [he]
      show (applyLoop rest (i + 1)
        (es.set i (((es.get ⟨i, hi⟩).update_direction dest).update_floor))).isSome = true
      apply ih (i + 1) _ (fun o ho => hall o (List.mem_cons_of_mem _ ho))
      rw [List.length_set]
      simp only [List.length_cons] at hlen
      omega

theorem applyLoop_length (fts : List (Option Nat)) :
    ∀ (i : Nat) (es es2 : List Elevator), applyLoop fts i es = some es2 →
      es2.length = es.length := by
  induction fts with
  | nil =>
    intro i es es2 h
    cases h
    rfl
  | cons o rest ih =>
    intro i es es2 h
    cases o with
    | none => simp [applyLoop] at h
    | some dest =>
      simp only [applyLoop] at h
      cases he : es.get? i with
      | none => rw [he] at h; simp at h
      | some e =>
        rw [he] at h
        have h2 := ih (i + 1) _ _ h
        rw [h2, List.length_set]

theorem clearLoop_isSome (es : List Elevator) :
    ∀ (i : Nat) (ft : List (Option Nat)),
      (∀ j, i ≤ j → j < i + es.length → ∃ v, ft.get? j = some (some v)) →
      (clearLoop es i ft).isSome = true := by
  induction es with
  | nil => intro i ft _; rfl
  | cons e rest ih =>
    intro i ft hft
    obtain ⟨v, hv⟩ := hft i (Nat.le_refl i) (by simp only [List.length_cons]; omega)
    simp only [clearLoop]
    rw [hv]
    show (clearLoop rest (i + 1) (if v = e.floor_on then ft.set i none else ft)).isSome = true
    have hrest : ∀ (ft2 : List (Option Nat)),
        (∀ j, i + 1 ≤ j → j < (i + 1) + rest.length → ft2.get? j = ft.get? j) →
        (clearLoop rest (i + 1) ft2).isSome = true := by
      intro ft2 heq
      apply ih (i + 1)
      intro j hj1 hj2
      obtain ⟨w, hw⟩ := hft j (by omega) (by simp only [List.length_cons]; omega)
      exact ⟨w, by rw [heq j hj1 hj2]; exact hw⟩
    by_cases hd : v = e.floor_on
    · rw [if_pos hd]
      apply hrest
      intro j hj1 _
      exact list_get_q_set_ne ft none i j (by omega)
    · rw [if_neg hd]
      apply hrest
      intro j _ _
      rfl

theorem update_elevators_isSome_of {σ : Type} (S : Sampler σ) (c : RandomCtl) (rng : σ)
    (h1 : (applyLoop (c.update_floors_to S rng).1.floors_to 0
            (c.update_floors_to S rng).1.building.elevators).isSome = true)
    (h2 : ∀ es1, applyLoop (c.update_floors_to S rng).1.floors_to 0
            (c.update_floors_to S rng).1.building.elevators = some es1 →
          (clearLoop es1 0 (c.update_floors_to S rng).1.floors_to).isSome = true) :
    (c.update_elevators S rng).isSome = true := by
  obtain ⟨es1, hes1⟩ := Option.isSome_iff_exists.mp h1
  simp only [RandomCtl.update_elevators]
  rw [hes1, Option.some_bind]
  obtain ⟨ft1, hft1⟩ := Option.isSome_iff_exists.mp (h2 es1 hes1)
  rw [hft1]
  rfl

/-- C10: after RandomController::update_floors_to, the cached destination
entry is Some at every elevator index of the building (every None entry is
filled in each branch of the loop, after floors_to is padded to cover all
elevators); consequently RandomController::update_elevators — whose embedding
returns none exactly when one of the source's floors_to unwraps or elevator
index expressions would panic, including those in clear_floors_to — returns
some.  The hypothesis that floors_to is no longer than the elevator list is
the constructor invariant (RandomController::from creates them with equal
lengths and elevators are only ever appended). -/
theorem c10_update_floors_to_total {σ : Type} (S : Sampler σ) (c : RandomCtl) (rng : σ)
    (hlen : c.floors_to.length ≤ c.building.elevators.length) :
    (∀ i, i < (c.update_floors_to S rng).1.building.elevators.length →
       ((c.update_floors_to S rng).1.floors_to.getD i none).isSome = true) ∧
    (c.update_elevators S rng).isSome = true := by
  have hft0 : (c.floors_to ++ List.replicate
      (c.building.elevators.length - c.floors_to.length) none).length =
      c.building.elevators.length := by
    rw [List.length_append, List.length_replicate]
    omega
  have hflen : (c.update_floors_to S rng).1.floors_to.length =
      c.building.elevators.length := by
    show (updLoop S c.building _ c.p_rational c.building.elevators 0 _ rng).1.length = _
    rw [updLoop_length]
    exact hft0
  have hpart1 : ∀ i, i < c.building.elevators.length →
      ((c.update_floors_to S rng).1.floors_to.getD i none).isSome = true := by
    intro i hi
    show ((updLoop S c.building _ c.p_rational c.building.elevators 0 _ rng).1.getD i
      none).isSome = true
    apply updLoop_isSome
    · rw [hft0]
      exact hi
    · exact Or.inr ⟨Nat.zero_le i, by omega⟩
  refine ⟨fun i hi => hpart1 i hi, ?_⟩
  apply update_elevators_isSome_of
  · apply applyLoop_isSome
    · intro o ho
      obtain ⟨k, hk⟩ := List.mem_iff_get.mp ho
      have hsome := hpart1 k.1 (lt_of_lt_of_eq k.2 hflen)
      rw [list_getD_eq_get_q, List.get?_eq_get k.2, hk] at hsome
      exact hsome
    · show 0 + (c.update_floors_to S rng).1.floors_to.length ≤
        (c.update_floors_to S rng).1.building.elevators.length
      rw [Nat.zero_add, hflen]
      exact Nat.le_refl _
  · intro es1 hes1
    have hlen1 : es1.length = c.building.elevators.length :=
      applyLoop_length _ 0 _ es1 hes1
    apply clearLoop_isSome
    intro j hj1 hj2
    have hjlt : j < (c.update_floors_to S rng).1.floors_to.length := by
      rw [hflen]
      omega
    have hsome := hpart1 j (by rw [← hflen]; exact hjlt)
    rw [list_getD_eq_get_q] at hsome
    cases hq : (c.update_floors_to S rng).1.floors_to.get? j with
    | none =>
      rw [List.get?_eq_get hjlt] at hq
      simp at hq
    | some o =>
      rw [hq] at hsome
      cases o with
      | none => simp at hsome
      | some v => exact ⟨v, rfl⟩

/-- C10 witness: the concrete hybrid controller cC10 (one elevator, one
uncached entry) with the deterministic sampler — the updated cache entry is
Some and update_elevators does not hit any unwrap panic. -/
theorem c10_witness :
    (∀ i, i < (cC10.update_floors_to detSampler 0).1.building.elevators.length →
       ((cC10.update_floors_to detSampler 0).1.floors_to.getD i none).isSome = true) ∧
    (cC10.update_elevators detSampler 0).isSome = true :=
  c10_update_floors_to_total detSampler cC10 0 (by decide)

end Elevate
